import Mathlib

/-!
Shallow embedding of the polygon-image-clipper core (TypeScript/React).

Modules embedded:
* useCanvasMouse.ts      — the point-selection/drag state machine
  (handleMouseDown, handleMouseMove, handleMouseUp, handleMouseLeave,
  getCanvasStyle).
* useImageClipping.ts    — calculateBoundingBox, createClippedImageDataURL,
  clipImageFromPoints, clipImage (polygon-clip extraction and commit).
* imageReconstruction.ts — reconstructFromClippedImages (page reconstruction).
* App.tsx                — handleClip, removeClippedImage, clearAllClippedImages.

Modelling conventions:
* JS `number` coordinates are embedded as `ℚ` (exact rational arithmetic).
* A decoded image / canvas raster is a `Raster`: rational width/height plus
  a total pixel function `ℤ → ℤ → Color`; colors are abstract naturals.
* Canvas 2D drawing is modelled at pixel centers: pixel (i, j) covers the
  unit square [i, i+1) × [j, j+1) and is sampled at (i + 1/2, j + 1/2);
  no antialiasing (source resampling is nearest-neighbour via floor).
  `ctx.clip()` uses the canvas default nonzero-winding rule.
* `Image` decode (`img.onload` / `img.onerror`) is represented by passing
  the decode outcome (`Option Raster`) explicitly; data-URL encode/decode
  round-trips are modelled as lossless, so a stored `imageUrl` is
  represented directly by the raster it encodes.
* In `reconstructFromClippedImages` the code registers one independent
  `onload` callback per clip under `Promise.all` and each callback draws as
  soon as its own decode finishes; the order in which the event loop fires
  those callbacks is therefore an input of the model (`completionOrder`,
  a list of indices into the filtered clip list).
-/

namespace PolygonClipper

/-- Coordinates in source-pixel space of a page raster (types.ts `Point`). -/
structure Point where
  x : ℚ
  y : ℚ
deriving DecidableEq, Repr

/-- Abstract pixel color value. -/
abbrev Color := ℕ

/-- Background fill used by reconstruction (`ctx.fillStyle = "white"`). -/
def whiteColor : Color := 1

/-- Default pixel of a freshly created canvas (transparent; kept abstract). -/
def canvasDefault : Color := 2

/-- Decoded raster: dimensions plus a total pixel lookup. -/
structure Raster where
  width : ℚ
  height : ℚ
  pix : ℤ → ℤ → Color

/-- Squared Euclidean distance between two points. The source compares
`Math.sqrt(dx^2 + dy^2) < 20`; over exact rationals this is equivalent to
`dx^2 + dy^2 < 400`, which is how we embed the hit test. -/
def distSq (p q : Point) : ℚ :=
  (p.x - q.x) ^ 2 + (p.y - q.y) ^ 2

/-- Hit test of useCanvasMouse.ts: `distance < 20` source pixels. -/
def distLt20 (p q : Point) : Bool :=
  decide (distSq p q < 400)

/-! ### Nonzero-winding polygon membership (canvas `clip()` semantics)

The canvas paths built by the source are `moveTo` on the first point,
`lineTo` on the rest, then `closePath`: a closed polygon through the points
in input order. A point is inside under the nonzero winding rule iff the
winding number of the closed polygon around it is nonzero; we compute it by
counting signed crossings of the horizontal ray towards +x. -/

/-- Cross product (b − a) × (p − a), used for the side-of-edge test. -/
def cross2 (a b p : Point) : ℚ :=
  (b.x - a.x) * (p.y - a.y) - (b.y - a.y) * (p.x - a.x)

/-- Signed crossing contribution of directed edge a→b to the winding number
of a polygon around p (ray cast towards +x, half-open in y). -/
def edgeWinding (a b p : Point) : ℤ :=
  if a.y ≤ p.y ∧ p.y < b.y then
    (if 0 < cross2 a b p then 1 else 0)
  else if b.y ≤ p.y ∧ p.y < a.y then
    (if cross2 a b p < 0 then -1 else 0)
  else 0

/-- Consecutive edges of the closed polygon through `poly` in order
(last point joined back to the first, as `closePath` does). -/
def polyEdges (poly : List Point) : List (Point × Point) :=
  poly.zip (poly.drop 1 ++ poly.take 1)

/-- Winding number of the closed polygon `poly` around `p`. -/
def windingNumber (poly : List Point) (p : Point) : ℤ :=
  ((polyEdges poly).map (fun e => edgeWinding e.1 e.2 p)).foldl (· + ·) 0

/-- Nonzero-winding membership test (canvas default fill/clip rule). -/
def insideNonzero (poly : List Point) (p : Point) : Bool :=
  decide (windingNumber poly p ≠ 0)

/-! ### Canvas drawing model -/

/-- Model of `ctx.drawImage(img, sx, sy, sw, sh, dx, dy, dw, dh)` restricted
to a clip region: destination pixel (i, j) is overwritten iff its center
lies in the destination rectangle and inside the clip; the source is
sampled nearest-neighbour at the back-mapped coordinate. -/
def drawImageModel (dst : ℤ → ℤ → Color) (img : Raster)
    (sx sy sw sh dx dy dw dh : ℚ) (clip : Point → Bool) :
    ℤ → ℤ → Color :=
  fun i j =>
    let cx : ℚ := (i : ℚ) + 1/2
    let cy : ℚ := (j : ℚ) + 1/2
    if dx ≤ cx ∧ cx < dx + dw ∧ dy ≤ cy ∧ cy < dy + dh ∧
        clip ⟨cx, cy⟩ = true then
      img.pix ⌊sx + (cx - dx) * sw / dw⌋ ⌊sy + (cy - dy) * sh / dh⌋
    else
      dst i j

/-! ### useCanvasMouse.ts — the point-selection/drag state machine -/

/-- Cursor style computed by `getCanvasStyle` (only the `cursor` property
varies; the remaining base style is constant). -/
inductive CursorStyle where
  | base
  | move
  | pointer
deriving DecidableEq, Repr

/-- State owned by the `useCanvasMouse` hook: the working point list, the
drag index (`null` when idle) and the current canvas style. -/
structure MouseState where
  selectedPoints : List Point
  dragPointIndex : Option ℕ
  canvasStyle : CursorStyle
deriving DecidableEq, Repr

/-- Embedding of `getCanvasStyle(event?)`: `move` while dragging, `pointer`
when the (optional) event position is within the hit radius of some placed
point, `base` otherwise. -/
def getCanvasStyle (s : MouseState) (eventCoords : Option Point) :
    CursorStyle :=
  if s.dragPointIndex.isSome then .move
  else
    match eventCoords with
    | some coords =>
        if s.selectedPoints.length > 0 ∧
            s.selectedPoints.any (fun point => distLt20 point coords) then
          .pointer
        else .base
    | none => .base

/-- Embedding of `handleMouseDown`, after `getCanvasCoordinates` has mapped
the event into source-pixel coordinates `coords`. `findIndex` returns the
first array index whose point is within distance 20, or −1; we model the
−1 case with `Option`. -/
def handleMouseDown (s : MouseState) (coords : Point) : MouseState :=
  match s.selectedPoints.findIdx? (fun point => distLt20 point coords) with
  | some pointIndex => { s with dragPointIndex := some pointIndex }
  | none => { s with selectedPoints := s.selectedPoints ++ [coords] }

/-- Embedding of `handleMouseMove`: while dragging, overwrite the dragged
slot with `coords` (a JS indexed write at a live index, i.e. `List.set`);
in both branches the canvas style is recomputed from the pre-update state
(the React state values captured by the handler closure). -/
def handleMouseMove (s : MouseState) (coords : Point) : MouseState :=
  let moved :=
    match s.dragPointIndex with
    | some i => { s with selectedPoints := s.selectedPoints.set i coords }
    | none => s
  { moved with canvasStyle := getCanvasStyle s (some coords) }

/-- Embedding of `handleMouseUp`: drop the drag index. -/
def handleMouseUp (s : MouseState) : MouseState :=
  { s with dragPointIndex := none }

/-- Embedding of `handleMouseLeave`: drop the drag index and recompute the
style with no event position. -/
def handleMouseLeave (s : MouseState) : MouseState :=
  { { s with dragPointIndex := none } with
    canvasStyle := getCanvasStyle s none }

/-! ### useImageClipping.ts — polygon-clip extraction and commit -/

/-- Coordinates stored on a committed clip (types.ts
`ClippedImageInfo.coordinates`). -/
structure Coords where
  minX : ℚ
  minY : ℚ
  maxX : ℚ
  maxY : ℚ
  pageIndex : ℕ
deriving DecidableEq, Repr

/-- Result of `calculateBoundingBox`. -/
structure BBox where
  minX : ℚ
  minY : ℚ
  maxX : ℚ
  maxY : ℚ
  width : ℚ
  height : ℚ
deriving DecidableEq, Repr

/-- Model of `Math.min(...xs)` on a nonempty spread (every caller in the
source checks `length ≥ 3` first; the empty case, `Infinity` in JS, is
given an arbitrary value and is unreachable in the theorems below). -/
def jsMin : List ℚ → ℚ
  | [] => 0
  | x :: rest => rest.foldl min x

/-- Model of `Math.max(...xs)` on a nonempty spread. -/
def jsMax : List ℚ → ℚ
  | [] => 0
  | x :: rest => rest.foldl max x

/-- Embedding of `calculateBoundingBox`. -/
def calculateBoundingBox (selectedPoints : List Point) : BBox :=
  let xValues := selectedPoints.map (fun p => p.x)
  let yValues := selectedPoints.map (fun p => p.y)
  let minX := jsMin xValues
  let minY := jsMin yValues
  let maxX := jsMax xValues
  let maxY := jsMax yValues
  { minX := minX, minY := minY, maxX := maxX, maxY := maxY,
    width := maxX - minX, height := maxY - minY }

/-- Embedding of `createClippedImageDataURL`: a fresh `width × height`
canvas, a clip path through the points translated by (−minX, −minY), then
`drawImage(img, minX, minY, width, height, 0, 0, width, height)`. The
returned raster stands for the decoded content of the produced data URL
(encode/decode modelled lossless). -/
def createClippedImageDataURL (img : Raster) (selectedPoints : List Point)
    (minX minY width height : ℚ) : Raster :=
  let translated := selectedPoints.map fun p => Point.mk (p.x - minX) (p.y - minY)
  { width := width, height := height,
    pix := drawImageModel (fun _ _ => canvasDefault) img
      minX minY width height 0 0 width height (insideNonzero translated) }

/-- Errors raised on the clipping path. `insufficientPoints` is the
rejection with fewer than 3 points; `sourceUnavailable` is the
`img.onerror` rejection (source image failed to decode). -/
inductive ClipError where
  | insufficientPoints
  | sourceUnavailable
deriving DecidableEq, Repr

/-- Committed clip before `zIndex` is attached
(`Omit<ClippedImageInfo, "zIndex">`). `imageUrl` is represented by the
raster the stored data URL encodes. -/
structure ClippedImageData where
  imageUrl : Raster
  coordinates : Coords
  points : List Point

/-- Committed clip (types.ts `ClippedImageInfo`). -/
structure ClippedImageInfo where
  imageUrl : Raster
  coordinates : Coords
  points : List Point
  zIndex : ℕ

/-- Embedding of `clipImageFromPoints`. The decode of the source image URL
is passed in as `decodeResult` (`none` = `img.onerror` fired). -/
def clipImageFromPoints (decodeResult : Option Raster)
    (selectedPoints : List Point) (currentImageIndex : ℕ) :
    Except ClipError ClippedImageData :=
  if selectedPoints.length < 3 then
    .error .insufficientPoints
  else
    match decodeResult with
    | none => .error .sourceUnavailable
    | some img =>
        let bb := calculateBoundingBox selectedPoints
        let clippedImageUrl :=
          createClippedImageDataURL img selectedPoints
            bb.minX bb.minY bb.width bb.height
        .ok { imageUrl := clippedImageUrl,
              coordinates := { minX := bb.minX, minY := bb.minY,
                               maxX := bb.maxX, maxY := bb.maxY,
                               pageIndex := currentImageIndex },
              points := selectedPoints }

/-- Embedding of the hook-level `clipImage`: on success it attaches
`zIndex := clippedImages.length` and prepends the new clip
(`setClippedImages(prev => [withZIndex, ...prev])`); on failure it
rethrows. Returns the updated collection together with the new clip. -/
def clipImage (clippedImages : List ClippedImageInfo)
    (decodeResult : Option Raster) (selectedPoints : List Point)
    (currentImageIndex : ℕ) :
    Except ClipError (List ClippedImageInfo × ClippedImageInfo) :=
  match clipImageFromPoints decodeResult selectedPoints currentImageIndex with
  | .error e => .error e
  | .ok newClippedImage =>
      let clippedImageWithZIndex : ClippedImageInfo :=
        { imageUrl := newClippedImage.imageUrl,
          coordinates := newClippedImage.coordinates,
          points := newClippedImage.points,
          zIndex := clippedImages.length }
      .ok (clippedImageWithZIndex :: clippedImages, clippedImageWithZIndex)

/-! ### App.tsx — commit, delete, clear -/

/-- App-level state relevant to committing: the working point list and the
clip collection. -/
structure AppState where
  selectedPoints : List Point
  clippedImages : List ClippedImageInfo

/-- Embedding of `handleClip`: guard `selectedPoints.length < 3` returns
silently; otherwise `await clipImage(...)` and clear the point list on
success, while a rejection is caught (and reported via `console.error`,
surfaced here as the second component). -/
def handleClip (s : AppState) (decodeResult : Option Raster)
    (currentImageIndex : ℕ) : AppState × Option ClipError :=
  if s.selectedPoints.length < 3 then (s, none)
  else
    match clipImage s.clippedImages decodeResult s.selectedPoints
        currentImageIndex with
    | .error e => (s, some e)
    | .ok (newCollection, _) =>
        ({ selectedPoints := [], clippedImages := newCollection }, none)

/-- Embedding of `removeClippedImage`:
`prev.filter((_, i) => i !== index)` — positional filter. -/
def removeClippedImage (clippedImages : List ClippedImageInfo)
    (index : ℕ) : List ClippedImageInfo :=
  (clippedImages.enum.filter (fun p => p.1 ≠ index)).map (fun p => p.2)

/-- Embedding of `clearAllClippedImages`. -/
def clearAllClippedImages : List ClippedImageInfo := []

/-- History of collection-mutating operations, used to state invariants
about `zIndex` across commits and deletions. -/
inductive CollectionEvent where
  | commit (data : ClippedImageData)
  | remove (index : ℕ)

/-- Whether an event is a commit. -/
def CollectionEvent.isCommit : CollectionEvent → Bool
  | .commit _ => true
  | .remove _ => false

/-- Apply one collection event exactly as the source does: a commit runs the
success path of `clipImage` (zIndex = current length, prepend), a delete
runs `removeClippedImage`. -/
def applyEvent (l : List ClippedImageInfo) :
    CollectionEvent → List ClippedImageInfo
  | .commit d =>
      { imageUrl := d.imageUrl, coordinates := d.coordinates,
        points := d.points, zIndex := l.length } :: l
  | .remove i => removeClippedImage l i

/-- Collection reached from the empty session by a sequence of events. -/
def applyEvents (es : List CollectionEvent) : List ClippedImageInfo :=
  es.foldl applyEvent []

/-! ### imageReconstruction.ts — page reconstruction -/

/-- Draw one clip onto the page context, exactly as the `onload` callback
in `reconstructFromClippedImages` does: build the clip path from the
stored absolute points, then
`drawImage(clipImg, 0, 0, clipImg.width, clipImg.height, minX, minY,
maxX − minX, maxY − minY)`. The stored data URL decodes back to
`clip.imageUrl` (lossless codec model). -/
def drawClip (ctx : ℤ → ℤ → Color) (clip : ClippedImageInfo) :
    ℤ → ℤ → Color :=
  let clipImg := clip.imageUrl
  let c := clip.coordinates
  drawImageModel ctx clipImg 0 0 clipImg.width clipImg.height
    c.minX c.minY (c.maxX - c.minX) (c.maxY - c.minY)
    (insideNonzero clip.points)

/-- Embedding of `reconstructFromClippedImages`. The clips of the page are
filtered in collection order; each clip's draw runs inside its own
`onload` callback under `Promise.all`, so the page raster receives the
draws in decode-completion order, which is an input here:
`completionOrder` lists indices into the filtered `pageClips` in the order
the event loop fires their callbacks (in a successful run, a permutation
of all indices). Returns the composed page raster, or `none` when the page
has no clips. -/
def reconstructFromClippedImages (pageIndex : ℕ)
    (originalImageWidth originalImageHeight : ℚ)
    (clippedImages : List ClippedImageInfo)
    (completionOrder : List ℕ) : Option Raster :=
  let pageClips := clippedImages.filter
    (fun clip => clip.coordinates.pageIndex = pageIndex)
  if pageClips.length = 0 then none
  else
    let background : ℤ → ℤ → Color := fun _ _ => whiteColor
    some { width := originalImageWidth, height := originalImageHeight,
           pix := completionOrder.foldl
             (fun ctx k =>
               match pageClips.get? k with
               | some clip => drawClip ctx clip
               | none => ctx)
             background }

/-! ### Concrete instances used by witnesses and counterexamples -/

/-- Axis-aligned rectangle polygon through its four corners, in the order a
user would click them. -/
def rectPoly (x0 y0 x1 y1 : ℚ) : List Point :=
  [⟨x0, y0⟩, ⟨x1, y0⟩, ⟨x1, y1⟩, ⟨x0, y1⟩]

/-- Placeholder raster for clips whose pixel content is irrelevant. -/
def dummyRaster : Raster := ⟨0, 0, fun _ _ => 0⟩

/-- Commit payload tagged through `pageIndex` so that creation order stays
visible in the resulting collection. -/
def markerData (n : ℕ) : ClippedImageData :=
  { imageUrl := dummyRaster,
    coordinates := { minX := 0, minY := 0, maxX := 0, maxY := 0,
                     pageIndex := n },
    points := [] }

/-- Clip A: earlier-created (zIndex 0), solid color 7, covering the unit
square of page 0. -/
def clipA : ClippedImageInfo :=
  { imageUrl := ⟨1, 1, fun _ _ => 7⟩,
    coordinates := { minX := 0, minY := 0, maxX := 1, maxY := 1,
                     pageIndex := 0 },
    points := rectPoly 0 0 1 1,
    zIndex := 0 }

/-- Clip B: later-created (zIndex 1), solid color 9, covering the same
unit square of page 0 — it spatially overlaps `clipA` completely. -/
def clipB : ClippedImageInfo :=
  { imageUrl := ⟨1, 1, fun _ _ => 9⟩,
    coordinates := { minX := 0, minY := 0, maxX := 1, maxY := 1,
                     pageIndex := 0 },
    points := rectPoly 0 0 1 1,
    zIndex := 1 }

/-- Collection holding `clipA` and `clipB` in the order the hook stores
them (`setClippedImages(prev => [new, ...prev])` prepends, so the
later-created `clipB` sits first). -/
def overlapCollection : List ClippedImageInfo := [clipB, clipA]

/-- Triangle with at least 3 points, used to exercise the commit path. -/
def demoTriangle : List Point := [⟨0, 0⟩, ⟨4, 0⟩, ⟨0, 4⟩]

/-- App state holding a committable 3-point polygon and no clips yet. -/
def demoAppState : AppState :=
  { selectedPoints := demoTriangle, clippedImages := [] }

/-- Point list for the C3 counterexample: both points are within the
20-pixel hit radius of `cexPos`, and the second is strictly nearer. -/
def cexPts : List Point := [⟨0, 0⟩, ⟨10, 0⟩]

/-- Pointer-down position for the C3 counterexample. -/
def cexPos : Point := ⟨12, 0⟩

/-- End-to-end source page of the spec example: 100×100, white
(`whiteColor`) everywhere except a black (0) 20×20 square at
(40,40)–(60,60). -/
def srcPage : Raster :=
  ⟨100, 100, fun i j =>
    if 40 ≤ i ∧ i < 60 ∧ 40 ≤ j ∧ j < 60 then 0 else whiteColor⟩

/-- App state holding only two working points (not enough to commit). -/
def twoPointState : AppState :=
  { selectedPoints := [⟨0, 0⟩, ⟨1, 1⟩], clippedImages := [] }

/-! ## Helper lemmas -/

theorem map_snd_enumFrom {α : Type} (n : ℕ) (l : List α) :
    (List.enumFrom n l).map (fun p => p.2) = l :=
  List.enumFrom_map_snd n l

theorem enumFrom_filter_ne_of_lt {α : Type} (m : ℕ) (l : List α) :
    ∀ k : ℕ, m < k →
      (List.enumFrom k l).filter (fun p => p.1 ≠ m) = List.enumFrom k l := by
  induction l with
  | nil => intro k _; rfl
  | cons a t ih =>
      intro k hk
      rw [List.enumFrom_cons, List.filter_cons, if_pos (by simp; omega),
        ih (k + 1) (by omega)]

theorem enumFrom_filter_ne_map_snd {α : Type} (l : List α) :
    ∀ (i n : ℕ),
      ((List.enumFrom n l).filter (fun p => p.1 ≠ n + i)).map (fun p => p.2)
        = l.take i ++ l.drop (i + 1) := by
  induction l with
  | nil => intro i n; simp
  | cons a t ih =>
      intro i n
      cases i with
      | zero =>
          rw [List.enumFrom_cons, List.filter_cons, if_neg (by simp),
            enumFrom_filter_ne_of_lt (n + 0) t (n + 1) (by omega),
            map_snd_enumFrom]
          simp
      | succ j =>
          rw [List.enumFrom_cons, List.filter_cons, if_pos (by simp),
            List.map_cons,
            show n + (j + 1) = n + 1 + j from by omega, ih j (n + 1)]
          simp

theorem removeClippedImage_eq_take_drop (l : List ClippedImageInfo)
    (i : ℕ) : removeClippedImage l i = l.take i ++ l.drop (i + 1) := by
  have h := enumFrom_filter_ne_map_snd l i 0
  simpa [removeClippedImage, List.enum] using h

/-! ## Claim theorems -/

/-- C10: deleting the region at a valid index `i` removes exactly that one
region — the collection becomes the prefix before `i` followed by the
suffix after `i` (every other region retained, fields untouched, relative
order preserved) and the length drops by exactly 1. -/
theorem removeClippedImage_removes_exactly_one (l : List ClippedImageInfo)
    (i : ℕ) (h : i < l.length) :
    removeClippedImage l i = l.take i ++ l.drop (i + 1) ∧
    (removeClippedImage l i).length = l.length - 1 := by
  refine ⟨removeClippedImage_eq_take_drop l i, ?_⟩
  rw [removeClippedImage_eq_take_drop]
  simp only [List.length_append, List.length_take, List.length_drop]
  omega

/-- Witness for C10 at the two-element collection `[clipB, clipA]`,
deleting index 0. -/
theorem removeClippedImage_removes_exactly_one_witness :
    removeClippedImage [clipB, clipA] 0 =
        [clipB, clipA].take 0 ++ [clipB, clipA].drop 1 ∧
    (removeClippedImage [clipB, clipA] 0).length
      = [clipB, clipA].length - 1 :=
  removeClippedImage_removes_exactly_one [clipB, clipA] 0 (by decide)

/-- C9: while a drag of point `i` is in progress, a pointer-move rewrites
only slot `i` of the working point list (same length, all other slots
unchanged); while idle, a pointer-move leaves the point list untouched. -/
theorem handleMouseMove_frame (pts : List Point) (st : CursorStyle)
    (pos : Point) :
    (∀ i, i < pts.length →
      ((handleMouseMove ⟨pts, some i, st⟩ pos).selectedPoints.length
          = pts.length ∧
        (handleMouseMove ⟨pts, some i, st⟩ pos).selectedPoints[i]?
          = some pos ∧
        ∀ j, j ≠ i →
          (handleMouseMove ⟨pts, some i, st⟩ pos).selectedPoints[j]?
            = pts[j]?)) ∧
    (handleMouseMove ⟨pts, none, st⟩ pos).selectedPoints = pts := by
  refine ⟨fun i hi => ⟨?_, ?_, fun j hj => ?_⟩, rfl⟩
  · simp [handleMouseMove]
  · simp [handleMouseMove, List.getElem?_set_self hi]
  · simp [handleMouseMove, List.getElem?_set_ne (Ne.symm hj)]

/-- Witness for C9: dragging point 0 of `cexPts` to `cexPos` rewrites slot
0, keeps slot 1, and an idle move mutates nothing. -/
theorem handleMouseMove_frame_witness :
    (handleMouseMove ⟨cexPts, some 0, .base⟩ cexPos).selectedPoints[0]?
        = some cexPos ∧
    (handleMouseMove ⟨cexPts, some 0, .base⟩ cexPos).selectedPoints[1]?
        = cexPts[1]? ∧
    (handleMouseMove ⟨cexPts, none, .base⟩ cexPos).selectedPoints = cexPts :=
  ⟨((handleMouseMove_frame cexPts .base cexPos).1 0 (by decide)).2.1,
   ((handleMouseMove_frame cexPts .base cexPos).1 0 (by decide)).2.2 1
     (by decide),
   (handleMouseMove_frame cexPts .base cexPos).2⟩

/-- C6: a commit attempt over a working list with fewer than 3 points
always fails with the insufficient-points error (both at the extractor and
at the hook level), and the App handler leaves the working point list and
the clip collection exactly as they were. -/
theorem commit_insufficientPoints (s : AppState) (d : Option Raster)
    (k : ℕ) (h : s.selectedPoints.length < 3) :
    clipImageFromPoints d s.selectedPoints k
      = .error .insufficientPoints ∧
    clipImage s.clippedImages d s.selectedPoints k
      = .error .insufficientPoints ∧
    handleClip s d k = (s, none) := by
  have h1 : clipImageFromPoints d s.selectedPoints k
      = .error .insufficientPoints := by
    simp [clipImageFromPoints, h]
  exact ⟨h1, by simp [clipImage, h1], by simp [handleClip, h]⟩

/-- Witness for C6 at a concrete two-point working list. -/
theorem commit_insufficientPoints_witness :
    twoPointState.selectedPoints.length < 3 ∧
    clipImage twoPointState.clippedImages none
        twoPointState.selectedPoints 0 = .error .insufficientPoints ∧
    handleClip twoPointState none 0 = (twoPointState, none) :=
  ⟨by decide,
   (commit_insufficientPoints twoPointState none 0 (by decide)).2.1,
   (commit_insufficientPoints twoPointState none 0 (by decide)).2.2⟩

theorem clipImage_ok_shape (ci : List ClippedImageInfo) (d : Option Raster)
    (pts : List Point) (k : ℕ) (pr : List ClippedImageInfo × ClippedImageInfo)
    (h : clipImage ci d pts k = .ok pr) : pr.1 = pr.2 :: ci := by
  unfold clipImage at h
  cases hc : clipImageFromPoints d pts k with
  | error e => rw [hc] at h; cases h
  | ok data => rw [hc] at h; cases h; rfl

/-- C5: a failed commit surfaces its error and leaves the App state (the
working point list and the clip collection) exactly as before; every run
either leaves the state unchanged or is a successful commit that clears
the working point list and prepends exactly one new region. -/
theorem handleClip_atomic (s : AppState) (d : Option Raster) (k : ℕ) :
    ((handleClip s d k).2.isSome = true → (handleClip s d k).1 = s) ∧
    (∀ e, clipImage s.clippedImages d s.selectedPoints k = .error e →
      3 ≤ s.selectedPoints.length → handleClip s d k = (s, some e)) ∧
    ((handleClip s d k).1 = s ∨
      ((handleClip s d k).2 = none ∧
        (handleClip s d k).1.selectedPoints = [] ∧
        ∃ r, (handleClip s d k).1.clippedImages = r :: s.clippedImages)) := by
  by_cases hlen : s.selectedPoints.length < 3
  · refine ⟨by simp [handleClip, hlen], ?_,
      Or.inl (by simp [handleClip, hlen])⟩
    intro e _ hge
    omega
  · cases hclip : clipImage s.clippedImages d s.selectedPoints k with
    | error e =>
        refine ⟨?_, ?_, Or.inl ?_⟩ <;> simp [handleClip, hlen, hclip]
    | ok pr =>
        have hshape := clipImage_ok_shape s.clippedImages d
          s.selectedPoints k pr hclip
        refine ⟨?_, ?_, Or.inr ⟨?_, ?_, pr.2, ?_⟩⟩ <;>
          simp [handleClip, hlen, hclip, hshape]

/-- Witness for C5: committing `demoAppState` (3 points) with a failing
source decode reports an error and leaves the state untouched. -/
theorem handleClip_atomic_witness :
    (handleClip demoAppState none 0).2.isSome = true ∧
    (handleClip demoAppState none 0).1 = demoAppState :=
  ⟨rfl, (handleClip_atomic demoAppState none 0).1 rfl⟩

/-- C4 counterexample: commit two regions (tagged 100, 101 through their
`pageIndex`), delete the older one (position 1 of the prepended list), then
commit a third (tagged 102). The third region is created strictly later
than the surviving second one, yet both end with `zIndex = 1`: after a
deletion, `insertionIndex` no longer records true creation order. -/
theorem zIndex_not_creation_order_counterexample :
    ((applyEvents [.commit (markerData 100), .commit (markerData 101),
        .remove 1, .commit (markerData 102)]).map
      (fun r => (r.coordinates.pageIndex, r.zIndex)))
      = [(102, 1), (101, 1)] := by
  rfl

theorem applyEvents_commits_zIndexes :
    ∀ (es : List CollectionEvent), (∀ e ∈ es, e.isCommit = true) →
      ∀ l : List ClippedImageInfo,
        ((es.foldl applyEvent l).map fun r => r.zIndex)
          = (List.range' l.length es.length).reverse
            ++ (l.map fun r => r.zIndex) := by
  intro es
  induction es with
  | nil => intro _ l; simp
  | cons e rest ih =>
      intro h l
      cases e with
      | remove i =>
          exact absurd (h _ (List.mem_cons_self _ _))
            (by simp [CollectionEvent.isCommit])
      | commit d =>
          have hrest : ∀ x ∈ rest, x.isCommit = true :=
            fun x hx => h x (List.mem_cons_of_mem _ hx)
          rw [List.foldl_cons, ih hrest]
          simp [applyEvent, List.range'_succ, List.range'_concat]

/-- C4 (amended): every committed region's `zIndex` equals the collection
size at the moment of its creation, and in any deletion-free history the
surviving regions' `zIndex` values are exactly `len−1, …, 1, 0` down the
prepended list — later-created regions strictly above earlier ones. (The
original claim's "strictly larger across any sequence of commits and
deletions" fails: see the counterexample.) -/
theorem zIndex_equals_size_at_creation (es : List CollectionEvent)
    (h : ∀ e ∈ es, e.isCommit = true) :
    ((applyEvents es).map fun r => r.zIndex) = (List.range es.length).reverse ∧
    ∀ (l : List ClippedImageInfo) (d : ClippedImageData),
      ((applyEvent l (.commit d)).map fun r => r.zIndex)
        = l.length :: (l.map fun r => r.zIndex) := by
  constructor
  · have hz := applyEvents_commits_zIndexes es h []
    simpa [applyEvents, List.range_eq_range'] using hz
  · intro l d; rfl

/-- Witness for the amended C4 at a concrete two-commit history. -/
theorem zIndex_equals_size_at_creation_witness :
    (∀ e ∈ [CollectionEvent.commit (markerData 100),
        CollectionEvent.commit (markerData 101)], e.isCommit = true) ∧
    ((applyEvents [CollectionEvent.commit (markerData 100),
        CollectionEvent.commit (markerData 101)]).map fun r => r.zIndex)
      = [1, 0] :=
  ⟨by decide,
   (zIndex_equals_size_at_creation
     [CollectionEvent.commit (markerData 100),
      CollectionEvent.commit (markerData 101)] (by decide)).1⟩

theorem findIdx?_some_spec {α : Type} (p : α → Bool) :
    ∀ (l : List α) (i : ℕ), l.findIdx? p = some i →
      ∃ a, l[i]? = some a ∧ p a = true ∧
        ∀ j, j < i → ∀ b, l[j]? = some b → p b = false := by
  intro l
  induction l with
  | nil => intro i h; simp [List.findIdx?] at h
  | cons x xs ih =>
      intro i h
      rw [List.findIdx?_cons] at h
      by_cases hx : p x = true
      · rw [if_pos hx] at h
        cases h
        exact ⟨x, by simp, hx, fun j hj => absurd hj (by omega)⟩
      · rw [if_neg hx] at h
        rw [List.findIdx?_succ] at h
        cases hxs : xs.findIdx? p with
        | none => rw [hxs] at h; cases h
        | some i0 =>
            rw [hxs] at h
            obtain ⟨a, ha, hpa, hmin⟩ := ih i0 hxs
            have hi : i = i0 + 1 := by
              simp at h
              omega
            subst hi
            refine ⟨a, by simpa using ha, hpa, ?_⟩
            intro j hj b hb
            cases j with
            | zero =>
                have hbx : b = x := by simpa using hb.symm
                subst hbx
                simpa using hx
            | succ j0 =>
                exact hmin j0 (by omega) b (by simpa using hb)

/-- C3 counterexample: with the working points `[(0,0), (10,0)]` and a
pointer-down at `(12,0)`, both points are strictly within the 20-pixel hit
radius and the point at index 1 is strictly nearer (distance 2 versus 12),
yet the handler starts a drag of index 0 — `findIndex` picks the first
point in list order, not the nearest one. -/
theorem handleMouseDown_not_nearest_counterexample :
    distSq ⟨0, 0⟩ cexPos < 400 ∧ distSq ⟨10, 0⟩ cexPos < 400 ∧
    distSq ⟨10, 0⟩ cexPos < distSq ⟨0, 0⟩ cexPos ∧
    (handleMouseDown ⟨cexPts, none, .base⟩ cexPos).dragPointIndex
      = some 0 ∧
    (handleMouseDown ⟨cexPts, none, .base⟩ cexPos).selectedPoints
      = cexPts := by
  refine ⟨by norm_num [distSq, cexPos], by norm_num [distSq, cexPos],
    by norm_num [distSq, cexPos], ?_, ?_⟩ <;>
    norm_num [handleMouseDown, cexPts, cexPos, List.findIdx?_cons,
      distLt20, distSq]

/-- C3 (amended): on pointer-down, if some existing point lies strictly
within distance 20 (source pixels) of `pos`, the handler starts a drag of
the first such point in list order (the lowest index, not necessarily the
nearest) and the point list is unchanged; otherwise `pos` is appended and
the point count grows by exactly 1. -/
theorem handleMouseDown_drag_or_append (pts : List Point)
    (st : CursorStyle) (pos : Point) :
    ((∃ p ∈ pts, distSq p pos < 400) →
      ∃ i pi,
        (handleMouseDown ⟨pts, none, st⟩ pos).dragPointIndex = some i ∧
        (handleMouseDown ⟨pts, none, st⟩ pos).selectedPoints = pts ∧
        pts[i]? = some pi ∧ distSq pi pos < 400 ∧
        ∀ j, j < i → ∀ q, pts[j]? = some q → ¬ distSq q pos < 400) ∧
    ((∀ p ∈ pts, ¬ distSq p pos < 400) →
      (handleMouseDown ⟨pts, none, st⟩ pos).selectedPoints = pts ++ [pos] ∧
      (handleMouseDown ⟨pts, none, st⟩ pos).selectedPoints.length
        = pts.length + 1 ∧
      (handleMouseDown ⟨pts, none, st⟩ pos).dragPointIndex = none) := by
  constructor
  · rintro ⟨p, hp, hd⟩
    cases hidx : pts.findIdx? (fun point => distLt20 point pos) with
    | none =>
        rw [List.findIdx?_eq_none_iff] at hidx
        have hfalse := hidx p hp
        rw [distLt20] at hfalse
        simp at hfalse
        exact absurd hd (not_lt.mpr hfalse)
    | some i =>
        obtain ⟨a, ha, hpa, hmin⟩ :=
          findIdx?_some_spec (fun point => distLt20 point pos) pts i hidx
        refine ⟨i, a, ?_, ?_, ha, ?_, ?_⟩
        · simp [handleMouseDown, hidx]
        · simp [handleMouseDown, hidx]
        · rw [distLt20] at hpa
          simpa using hpa
        · intro j hj q hq
          have hfq := hmin j hj q hq
          rw [distLt20] at hfq
          simpa using hfq
  · intro hnone
    have hidx : pts.findIdx? (fun point => distLt20 point pos) = none := by
      rw [List.findIdx?_eq_none_iff]
      intro x hx
      have hnx := hnone x hx
      rw [distLt20]
      simpa using hnx
    refine ⟨?_, ?_, ?_⟩ <;> simp [handleMouseDown, hidx]

/-- Witness for the amended C3: a pointer-down near an existing point
drags (list unchanged), a pointer-down far from both points appends. -/
theorem handleMouseDown_drag_or_append_witness :
    (handleMouseDown ⟨cexPts, none, .base⟩ cexPos).selectedPoints
        = cexPts ∧
    (handleMouseDown ⟨cexPts, none, .base⟩ ⟨100, 100⟩).selectedPoints
        = cexPts ++ [⟨100, 100⟩] := by
  constructor
  · obtain ⟨i, pi, _, hpts, _, _, _⟩ :=
      (handleMouseDown_drag_or_append cexPts .base cexPos).1
        ⟨⟨0, 0⟩, by simp [cexPts], by norm_num [distSq, cexPos]⟩
    exact hpts
  · exact ((handleMouseDown_drag_or_append cexPts .base ⟨100, 100⟩).2
      (by
        intro q hq
        rcases List.mem_cons.mp hq with h | h
        · subst h; norm_num [distSq]
        · rcases List.mem_cons.mp h with h2 | h2
          · subst h2; norm_num [distSq]
          · cases h2)).1

theorem foldl_min_le_init (l : List ℚ) : ∀ a : ℚ, l.foldl min a ≤ a := by
  induction l with
  | nil => intro a; simp
  | cons x t ih =>
      intro a
      exact le_trans (ih (min a x)) (min_le_left a x)

theorem foldl_min_le_mem (l : List ℚ) :
    ∀ (a x : ℚ), x ∈ l → l.foldl min a ≤ x := by
  induction l with
  | nil => intro a x hx; cases hx
  | cons y t ih =>
      intro a x hx
      rcases List.mem_cons.mp hx with h | h
      · subst h
        exact le_trans (foldl_min_le_init t (min a x)) (min_le_right a x)
      · exact ih (min a y) x h

theorem foldl_min_mem (l : List ℚ) :
    ∀ a : ℚ, l.foldl min a = a ∨ l.foldl min a ∈ l := by
  induction l with
  | nil => intro a; left; rfl
  | cons x t ih =>
      intro a
      rcases ih (min a x) with h | h
      · rcases min_choice a x with hc | hc
        · left; rw [List.foldl_cons, h, hc]
        · right; rw [List.foldl_cons, h, hc]; exact List.mem_cons_self x t
      · right; exact List.mem_cons_of_mem x h

theorem le_foldl_max_init (l : List ℚ) : ∀ a : ℚ, a ≤ l.foldl max a := by
  induction l with
  | nil => intro a; simp
  | cons x t ih =>
      intro a
      exact le_trans (le_max_left a x) (ih (max a x))

theorem le_foldl_max_mem (l : List ℚ) :
    ∀ (a x : ℚ), x ∈ l → x ≤ l.foldl max a := by
  induction l with
  | nil => intro a x hx; cases hx
  | cons y t ih =>
      intro a x hx
      rcases List.mem_cons.mp hx with h | h
      · subst h
        exact le_trans (le_max_right a x) (le_foldl_max_init t (max a x))
      · exact ih (max a y) x h

theorem foldl_max_mem (l : List ℚ) :
    ∀ a : ℚ, l.foldl max a = a ∨ l.foldl max a ∈ l := by
  induction l with
  | nil => intro a; left; rfl
  | cons x t ih =>
      intro a
      rcases ih (max a x) with h | h
      · rcases max_choice a x with hc | hc
        · left; rw [List.foldl_cons, h, hc]
        · right; rw [List.foldl_cons, h, hc]; exact List.mem_cons_self x t
      · right; exact List.mem_cons_of_mem x h

theorem jsMin_mem (l : List ℚ) (h : l ≠ []) : jsMin l ∈ l := by
  cases l with
  | nil => exact absurd rfl h
  | cons x t =>
      rcases foldl_min_mem t x with h1 | h1
      · rw [jsMin, h1]; exact List.mem_cons_self x t
      · exact List.mem_cons_of_mem x h1

theorem jsMin_le (l : List ℚ) (x : ℚ) (hx : x ∈ l) : jsMin l ≤ x := by
  cases l with
  | nil => cases hx
  | cons y t =>
      rcases List.mem_cons.mp hx with h | h
      · subst h; exact foldl_min_le_init t x
      · exact foldl_min_le_mem t y x h

theorem jsMax_mem (l : List ℚ) (h : l ≠ []) : jsMax l ∈ l := by
  cases l with
  | nil => exact absurd rfl h
  | cons x t =>
      rcases foldl_max_mem t x with h1 | h1
      · rw [jsMax, h1]; exact List.mem_cons_self x t
      · exact List.mem_cons_of_mem x h1

theorem le_jsMax (l : List ℚ) (x : ℚ) (hx : x ∈ l) : x ≤ jsMax l := by
  cases l with
  | nil => cases hx
  | cons y t =>
      rcases List.mem_cons.mp hx with h | h
      · subst h; exact le_foldl_max_init t x
      · exact le_foldl_max_mem t y x h

/-- C7: for any polygon with at least 3 points, the computed bounding box
is the exact minimum/maximum of the point coordinates (each bound is
attained by some point and bounds all points), its width/height are
`maxX − minX` / `maxY − minY`, and the extracted raster produced by a
successful clip has exactly those dimensions. -/
theorem boundingBox_exact (pts : List Point) (h : 3 ≤ pts.length)
    (img : Raster) (k : ℕ) :
    ((calculateBoundingBox pts).minX ∈ pts.map (fun p => p.x) ∧
      ∀ p ∈ pts, (calculateBoundingBox pts).minX ≤ p.x) ∧
    ((calculateBoundingBox pts).minY ∈ pts.map (fun p => p.y) ∧
      ∀ p ∈ pts, (calculateBoundingBox pts).minY ≤ p.y) ∧
    ((calculateBoundingBox pts).maxX ∈ pts.map (fun p => p.x) ∧
      ∀ p ∈ pts, p.x ≤ (calculateBoundingBox pts).maxX) ∧
    ((calculateBoundingBox pts).maxY ∈ pts.map (fun p => p.y) ∧
      ∀ p ∈ pts, p.y ≤ (calculateBoundingBox pts).maxY) ∧
    ((calculateBoundingBox pts).width
        = (calculateBoundingBox pts).maxX - (calculateBoundingBox pts).minX ∧
      (calculateBoundingBox pts).height
        = (calculateBoundingBox pts).maxY - (calculateBoundingBox pts).minY) ∧
    ∀ r, clipImageFromPoints (some img) pts k = .ok r →
      r.imageUrl.width = (calculateBoundingBox pts).width ∧
      r.imageUrl.height = (calculateBoundingBox pts).height := by
  have hne : pts ≠ [] := by
    cases pts
    · simp at h
    · simp
  have hnex : pts.map (fun p => p.x) ≠ [] := by
    simpa using hne
  have hney : pts.map (fun p => p.y) ≠ [] := by
    simpa using hne
  refine ⟨⟨jsMin_mem _ hnex, ?_⟩, ⟨jsMin_mem _ hney, ?_⟩,
    ⟨jsMax_mem _ hnex, ?_⟩, ⟨jsMax_mem _ hney, ?_⟩, ⟨rfl, rfl⟩, ?_⟩
  · exact fun p hp => jsMin_le _ p.x (List.mem_map_of_mem _ hp)
  · exact fun p hp => jsMin_le _ p.y (List.mem_map_of_mem _ hp)
  · exact fun p hp => le_jsMax _ p.x (List.mem_map_of_mem _ hp)
  · exact fun p hp => le_jsMax _ p.y (List.mem_map_of_mem _ hp)
  · intro r hr
    have hlt : ¬ (pts.length < 3) := by omega
    rw [clipImageFromPoints, if_neg hlt] at hr
    cases hr
    exact ⟨rfl, rfl⟩

/-- Witness for C7 at a concrete triangle. -/
theorem boundingBox_exact_witness :
    3 ≤ demoTriangle.length ∧
    ((calculateBoundingBox demoTriangle).minX ∈
        demoTriangle.map (fun p => p.x) ∧
      ∀ p ∈ demoTriangle, (calculateBoundingBox demoTriangle).minX ≤ p.x) :=
  ⟨by decide, (boundingBox_exact demoTriangle (by decide) dummyRaster 0).1⟩

theorem reconstruct_overlap_clipB_decodes_first :
    ((reconstructFromClippedImages 0 1 1 overlapCollection [0, 1]).map
        fun page => page.pix 0 0) = some 7 := by
  norm_num [reconstructFromClippedImages, drawClip, drawImageModel,
    insideNonzero, windingNumber, polyEdges, edgeWinding, cross2,
    overlapCollection, clipA, clipB, rectPoly, whiteColor]

theorem reconstruct_overlap_clipA_decodes_first :
    ((reconstructFromClippedImages 0 1 1 overlapCollection [1, 0]).map
        fun page => page.pix 0 0) = some 9 := by
  norm_num [reconstructFromClippedImages, drawClip, drawImageModel,
    insideNonzero, windingNumber, polyEdges, edgeWinding, cross2,
    overlapCollection, clipA, clipB, rectPoly, whiteColor]

/-- C1 [code bug, evaluated at the failing input]: the collection holds
`clipA` (zIndex 0, color 7) and `clipB` (zIndex 1, color 9), fully
overlapping on page 0. The code draws each clip in its own decode
callback, so when `clipB`'s bytes resolve first (completion order
`[0, 1]` over the prepended list `[clipB, clipA]`), the earlier-created
`clipA` is drawn last and its color 7 ends on top — the draw of the
smaller `insertionIndex` happened after the larger one's. Ascending
`insertionIndex` serialization, as the claim requires, would always draw
`clipA` first and leave `clipB`'s color 9 on top, which the code produces
only for the other completion order `[1, 0]`. -/
theorem reconstruct_draw_order_follows_decode_order :
    clipA.zIndex < clipB.zIndex ∧
    ((reconstructFromClippedImages 0 1 1 overlapCollection [0, 1]).map
        fun page => page.pix 0 0) = some 7 ∧
    ((reconstructFromClippedImages 0 1 1 overlapCollection [1, 0]).map
        fun page => page.pix 0 0) = some 9 :=
  ⟨by decide, reconstruct_overlap_clipB_decodes_first,
    reconstruct_overlap_clipA_decodes_first⟩

theorem edgeWinding_horizontal (xa xb yy : ℚ) (p : Point) :
    edgeWinding ⟨xa, yy⟩ ⟨xb, yy⟩ p = 0 := by
  unfold edgeWinding
  dsimp only
  have h1 : ¬ (yy ≤ p.y ∧ p.y < yy) := by rintro ⟨ha, hb⟩; linarith
  rw [if_neg h1, if_neg h1]

theorem edgeWinding_up (xx ya yb : ℚ) (hab : ya < yb) (p : Point) :
    edgeWinding ⟨xx, ya⟩ ⟨xx, yb⟩ p
      = if ya ≤ p.y ∧ p.y < yb then (if p.x < xx then 1 else 0) else 0 := by
  unfold edgeWinding cross2
  dsimp only
  have hpos : (0 : ℚ) < yb - ya := by linarith
  by_cases h1 : ya ≤ p.y ∧ p.y < yb
  · rw [if_pos h1, if_pos h1]
    have hcr : (0 < (xx - xx) * (p.y - ya) - (yb - ya) * (p.x - xx))
        ↔ p.x < xx := by
      constructor
      · intro h
        by_contra hc
        push_neg at hc
        nlinarith [mul_nonneg (le_of_lt hpos) (sub_nonneg.mpr hc)]
      · intro h
        nlinarith [mul_pos hpos (sub_pos.mpr h)]
    by_cases h2 : p.x < xx
    · rw [if_pos (hcr.mpr h2), if_pos h2]
    · rw [if_neg (fun hc => h2 (hcr.mp hc)), if_neg h2]
  · rw [if_neg h1, if_neg h1]
    have h3 : ¬ (yb ≤ p.y ∧ p.y < ya) := by rintro ⟨ha, hb⟩; linarith
    rw [if_neg h3]

theorem edgeWinding_down (xx ya yb : ℚ) (hab : yb < ya) (p : Point) :
    edgeWinding ⟨xx, ya⟩ ⟨xx, yb⟩ p
      = if yb ≤ p.y ∧ p.y < ya then (if p.x < xx then -1 else 0) else 0 := by
  unfold edgeWinding cross2
  dsimp only
  have hpos : (0 : ℚ) < ya - yb := by linarith
  have h0 : ¬ (ya ≤ p.y ∧ p.y < yb) := by rintro ⟨ha, hb⟩; linarith
  rw [if_neg h0]
  by_cases h1 : yb ≤ p.y ∧ p.y < ya
  · rw [if_pos h1, if_pos h1]
    have hcr : ((xx - xx) * (p.y - ya) - (yb - ya) * (p.x - xx) < 0)
        ↔ p.x < xx := by
      constructor
      · intro h
        by_contra hc
        push_neg at hc
        nlinarith [mul_nonneg (le_of_lt hpos) (sub_nonneg.mpr hc)]
      · intro h
        nlinarith [mul_pos hpos (sub_pos.mpr h)]
    by_cases h2 : p.x < xx
    · rw [if_pos (hcr.mpr h2), if_pos h2]
    · rw [if_neg (fun hc => h2 (hcr.mp hc)), if_neg h2]
  · rw [if_neg h1, if_neg h1]

theorem windingNumber_rectPoly (x0 y0 x1 y1 : ℚ) (hx : x0 < x1)
    (hy : y0 < y1) (p : Point) :
    windingNumber (rectPoly x0 y0 x1 y1) p
      = if x0 ≤ p.x ∧ p.x < x1 ∧ y0 ≤ p.y ∧ p.y < y1 then 1 else 0 := by
  have expand : windingNumber (rectPoly x0 y0 x1 y1) p
      = (((0 + edgeWinding ⟨x0, y0⟩ ⟨x1, y0⟩ p)
          + edgeWinding ⟨x1, y0⟩ ⟨x1, y1⟩ p)
          + edgeWinding ⟨x1, y1⟩ ⟨x0, y1⟩ p)
          + edgeWinding ⟨x0, y1⟩ ⟨x0, y0⟩ p := rfl
  rw [expand, edgeWinding_horizontal x0 x1 y0 p,
    edgeWinding_horizontal x1 x0 y1 p, edgeWinding_up x1 y0 y1 hy p,
    edgeWinding_down x0 y1 y0 hy p]
  by_cases hpy : y0 ≤ p.y ∧ p.y < y1
  · by_cases hx0 : p.x < x0
    · have hx1 : p.x < x1 := by linarith
      have hnx0 : ¬ (x0 ≤ p.x) := not_le.mpr hx0
      simp [hpy, hx0, hx1, hnx0]
    · by_cases hx1 : p.x < x1
      · have hyes : x0 ≤ p.x ∧ p.x < x1 ∧ y0 ≤ p.y ∧ p.y < y1 :=
          ⟨not_lt.mp hx0, hx1, hpy.1, hpy.2⟩
        simp [hpy, hx0, hx1, hyes]
      · have hno : ¬ (x0 ≤ p.x ∧ p.x < x1 ∧ y0 ≤ p.y ∧ p.y < y1) := by
          rintro ⟨_, h, _⟩; exact hx1 h
        simp [hpy, hx0, hx1, hno]
  · have hno : ¬ (x0 ≤ p.x ∧ p.x < x1 ∧ y0 ≤ p.y ∧ p.y < y1) := by
      rintro ⟨_, _, h3, h4⟩; exact hpy ⟨h3, h4⟩
    simp [hpy, hno]

theorem insideNonzero_rectPoly (x0 y0 x1 y1 : ℚ) (hx : x0 < x1)
    (hy : y0 < y1) (p : Point) :
    insideNonzero (rectPoly x0 y0 x1 y1) p = true ↔
      (x0 ≤ p.x ∧ p.x < x1 ∧ y0 ≤ p.y ∧ p.y < y1) := by
  rw [insideNonzero, windingNumber_rectPoly x0 y0 x1 y1 hx hy p]
  by_cases h : x0 ≤ p.x ∧ p.x < x1 ∧ y0 ≤ p.y ∧ p.y < y1 <;> simp [h]

theorem int_le_add_half (a i : ℤ) : ((a : ℚ) ≤ (i : ℚ) + 1/2) ↔ a ≤ i := by
  constructor
  · intro h
    by_contra hc
    push_neg at hc
    have hc2 : (i : ℚ) + 1 ≤ (a : ℚ) := by exact_mod_cast hc
    linarith
  · intro h
    have h2 : (a : ℚ) ≤ (i : ℚ) := by exact_mod_cast h
    linarith

theorem add_half_lt_int (a i : ℤ) : ((i : ℚ) + 1/2 < (a : ℚ)) ↔ i < a := by
  constructor
  · intro h
    by_contra hc
    push_neg at hc
    have hc2 : (a : ℚ) ≤ (i : ℚ) := by exact_mod_cast hc
    linarith
  · intro h
    have h2 : (i : ℚ) + 1 ≤ (a : ℚ) := by exact_mod_cast h
    linarith

theorem floor_int_add_half (k : ℤ) : ⌊(k : ℚ) + 1/2⌋ = k := by
  rw [add_comm, Int.floor_add_int]
  norm_num

theorem rectPoly_translate (a b c d : ℚ) :
    (rectPoly a b c d).map (fun p => Point.mk (p.x - a) (p.y - b))
      = rectPoly 0 0 (c - a) (d - b) := by
  simp [rectPoly]

theorem calculateBoundingBox_rectPoly (x0 y0 x1 y1 : ℚ) (hx : x0 ≤ x1)
    (hy : y0 ≤ y1) :
    calculateBoundingBox (rectPoly x0 y0 x1 y1)
      = ⟨x0, y0, x1, y1, x1 - x0, y1 - y0⟩ := by
  unfold calculateBoundingBox rectPoly jsMin jsMax
  simp [List.foldl, min_eq_left hx, max_eq_right hx, min_eq_left hy,
    max_eq_right hy, min_self, max_self, hx, hy]

theorem drawImageModel_rect (dst : ℤ → ℤ → Color) (img : Raster)
    (sx sy aq bq cq dq w h : ℚ) (a b c d : ℤ)
    (ha : aq = (a : ℚ)) (hb : bq = (b : ℚ)) (hc : cq = (c : ℚ))
    (hd : dq = (d : ℚ)) (hw : w = cq - aq) (hh : h = dq - bq)
    (hac : a < c) (hbd : b < d) (i j : ℤ) :
    drawImageModel dst img sx sy w h aq bq w h
      (insideNonzero (rectPoly aq bq cq dq)) i j
      = if a ≤ i ∧ i < c ∧ b ≤ j ∧ j < d
          then img.pix ⌊sx + ((i : ℚ) - aq) + 1/2⌋ ⌊sy + ((j : ℚ) - bq) + 1/2⌋
          else dst i j := by
  subst ha hb hc hd hw hh
  have hacq : ((a : ℚ)) < (c : ℚ) := by exact_mod_cast hac
  have hbdq : ((b : ℚ)) < (d : ℚ) := by exact_mod_cast hbd
  have hwne : (c : ℚ) - (a : ℚ) ≠ 0 := by
    intro hz; apply absurd hacq; rw [sub_eq_zero] at hz; rw [hz]; exact lt_irrefl _
  have hhne : (d : ℚ) - (b : ℚ) ≠ 0 := by
    intro hz; apply absurd hbdq; rw [sub_eq_zero] at hz; rw [hz]; exact lt_irrefl _
  unfold drawImageModel
  dsimp only
  have hcond : ((a : ℚ) ≤ (i : ℚ) + 1/2 ∧
      (i : ℚ) + 1/2 < (a : ℚ) + ((c : ℚ) - (a : ℚ)) ∧
      (b : ℚ) ≤ (j : ℚ) + 1/2 ∧
      (j : ℚ) + 1/2 < (b : ℚ) + ((d : ℚ) - (b : ℚ)) ∧
      insideNonzero (rectPoly (a : ℚ) (b : ℚ) (c : ℚ) (d : ℚ))
        ⟨(i : ℚ) + 1/2, (j : ℚ) + 1/2⟩ = true)
      ↔ (a ≤ i ∧ i < c ∧ b ≤ j ∧ j < d) := by
    rw [insideNonzero_rectPoly _ _ _ _ hacq hbdq]
    dsimp only
    constructor
    · rintro ⟨h1, h2, h3, h4, _⟩
      exact ⟨(int_le_add_half a i).mp h1,
        (add_half_lt_int c i).mp (by linarith),
        (int_le_add_half b j).mp h3,
        (add_half_lt_int d j).mp (by linarith)⟩
    · rintro ⟨h1, h2, h3, h4⟩
      have k1 := (int_le_add_half a i).mpr h1
      have k2 := (add_half_lt_int c i).mpr h2
      have k3 := (int_le_add_half b j).mpr h3
      have k4 := (add_half_lt_int d j).mpr h4
      exact ⟨k1, by linarith, k3, by linarith, k1, k2, k3, k4⟩
  by_cases hij : a ≤ i ∧ i < c ∧ b ≤ j ∧ j < d
  · rw [if_pos (hcond.mpr hij), if_pos hij]
    congr 1
    · congr 1
      field_simp
      ring
    · congr 1
      field_simp
      ring
  · rw [if_neg (fun hcc => hij (hcond.mp hcc)), if_neg hij]

theorem extract_rect_exact (x0 y0 x1 y1 : ℤ) (hx : x0 < x1) (hy : y0 < y1)
    (src : Raster) (k : ℕ) :
    ∃ r, clipImageFromPoints (some src)
        (rectPoly (x0 : ℚ) (y0 : ℚ) (x1 : ℚ) (y1 : ℚ)) k = .ok r ∧
      r.coordinates = ⟨(x0 : ℚ), (y0 : ℚ), (x1 : ℚ), (y1 : ℚ), k⟩ ∧
      r.points = rectPoly (x0 : ℚ) (y0 : ℚ) (x1 : ℚ) (y1 : ℚ) ∧
      r.imageUrl.width = (x1 : ℚ) - (x0 : ℚ) ∧
      r.imageUrl.height = (y1 : ℚ) - (y0 : ℚ) ∧
      ∀ i j : ℤ, 0 ≤ i → i < x1 - x0 → 0 ≤ j → j < y1 - y0 →
        r.imageUrl.pix i j = src.pix (x0 + i) (y0 + j) := by
  have hxq : (x0 : ℚ) ≤ (x1 : ℚ) := by exact_mod_cast le_of_lt hx
  have hyq : (y0 : ℚ) ≤ (y1 : ℚ) := by exact_mod_cast le_of_lt hy
  have hbb := calculateBoundingBox_rectPoly (x0 : ℚ) (y0 : ℚ) (x1 : ℚ)
    (y1 : ℚ) hxq hyq
  have hlen : ¬ ((rectPoly (x0 : ℚ) (y0 : ℚ) (x1 : ℚ) (y1 : ℚ)).length < 3) := by
    simp [rectPoly]
  have hmain : clipImageFromPoints (some src)
      (rectPoly (x0 : ℚ) (y0 : ℚ) (x1 : ℚ) (y1 : ℚ)) k
      = .ok { imageUrl := createClippedImageDataURL src
                (rectPoly (x0 : ℚ) (y0 : ℚ) (x1 : ℚ) (y1 : ℚ))
                (x0 : ℚ) (y0 : ℚ) ((x1 : ℚ) - (x0 : ℚ)) ((y1 : ℚ) - (y0 : ℚ)),
              coordinates := ⟨(x0 : ℚ), (y0 : ℚ), (x1 : ℚ), (y1 : ℚ), k⟩,
              points := rectPoly (x0 : ℚ) (y0 : ℚ) (x1 : ℚ) (y1 : ℚ) } := by
    unfold clipImageFromPoints
    rw [if_neg hlen]
    dsimp only
    rw [hbb]
  refine ⟨_, hmain, rfl, rfl, rfl, rfl, ?_⟩
  intro i j hi0 hi1 hj0 hj1
  show (createClippedImageDataURL src
      (rectPoly (x0 : ℚ) (y0 : ℚ) (x1 : ℚ) (y1 : ℚ))
      (x0 : ℚ) (y0 : ℚ) ((x1 : ℚ) - (x0 : ℚ)) ((y1 : ℚ) - (y0 : ℚ))).pix i j
    = src.pix (x0 + i) (y0 + j)
  unfold createClippedImageDataURL
  dsimp only
  rw [rectPoly_translate]
  rw [drawImageModel_rect (fun _ _ => canvasDefault) src (x0 : ℚ) (y0 : ℚ)
    0 0 ((x1 : ℚ) - (x0 : ℚ)) ((y1 : ℚ) - (y0 : ℚ))
    ((x1 : ℚ) - (x0 : ℚ)) ((y1 : ℚ) - (y0 : ℚ))
    0 0 (x1 - x0) (y1 - y0)
    (by norm_num) (by norm_num) (by push_cast; ring) (by push_cast; ring)
    (by ring) (by ring) (by omega) (by omega) i j]
  rw [if_pos ⟨hi0, hi1, hj0, hj1⟩]
  congr 1
  · rw [show (x0 : ℚ) + ((i : ℚ) - 0) = ((x0 + i : ℤ) : ℚ) from by
      push_cast; ring]
    exact floor_int_add_half _
  · rw [show (y0 : ℚ) + ((j : ℚ) - 0) = ((y0 + j : ℤ) : ℚ) from by
      push_cast; ring]
    exact floor_int_add_half _

theorem drawClip_rect (ctx : ℤ → ℤ → Color) (r : ClippedImageInfo)
    (x0 y0 x1 y1 : ℤ) (hx : x0 < x1) (hy : y0 < y1)
    (hminX : r.coordinates.minX = (x0 : ℚ))
    (hminY : r.coordinates.minY = (y0 : ℚ))
    (hmaxX : r.coordinates.maxX = (x1 : ℚ))
    (hmaxY : r.coordinates.maxY = (y1 : ℚ))
    (hpts : r.points = rectPoly (x0 : ℚ) (y0 : ℚ) (x1 : ℚ) (y1 : ℚ))
    (hw : r.imageUrl.width = (x1 : ℚ) - (x0 : ℚ))
    (hh : r.imageUrl.height = (y1 : ℚ) - (y0 : ℚ)) (i j : ℤ) :
    drawClip ctx r i j
      = if x0 ≤ i ∧ i < x1 ∧ y0 ≤ j ∧ j < y1
          then r.imageUrl.pix (i - x0) (j - y0)
          else ctx i j := by
  unfold drawClip
  rw [hpts, hw, hh, hminX, hminY, hmaxX, hmaxY]
  rw [drawImageModel_rect ctx r.imageUrl 0 0 (x0 : ℚ) (y0 : ℚ) (x1 : ℚ)
    (y1 : ℚ) ((x1 : ℚ) - (x0 : ℚ)) ((y1 : ℚ) - (y0 : ℚ)) x0 y0 x1 y1
    rfl rfl rfl rfl rfl rfl hx hy i j]
  by_cases hij : x0 ≤ i ∧ i < x1 ∧ y0 ≤ j ∧ j < y1
  · rw [if_pos hij, if_pos hij]
    congr 1
    · rw [show (0 : ℚ) + ((i : ℚ) - (x0 : ℚ)) = ((i - x0 : ℤ) : ℚ) from by
        push_cast; ring]
      exact floor_int_add_half _
    · rw [show (0 : ℚ) + ((j : ℚ) - (y0 : ℚ)) = ((j - y0 : ℤ) : ℚ) from by
        push_cast; ring]
      exact floor_int_add_half _
  · rw [if_neg hij, if_neg hij]

theorem rect_roundtrip_concrete :
    ∃ r page, clipImageFromPoints (some srcPage)
        (rectPoly ((40 : ℤ) : ℚ) ((40 : ℤ) : ℚ) ((60 : ℤ) : ℚ)
          ((60 : ℤ) : ℚ)) 0 = .ok r ∧
      reconstructFromClippedImages 0 100 100
        [⟨r.imageUrl, r.coordinates, r.points, 0⟩] [0] = some page ∧
      page.width = 100 ∧ page.height = 100 ∧
      ∀ i j : ℤ, page.pix i j = srcPage.pix i j := by
  obtain ⟨r, hr, hco, hpts, hwid, hhei, hpix⟩ :=
    extract_rect_exact 40 40 60 60 (by decide) (by decide) srcPage 0
  refine ⟨r, ⟨100, 100,
    drawClip (fun _ _ => whiteColor)
      ⟨r.imageUrl, r.coordinates, r.points, 0⟩⟩, hr, ?_, rfl, rfl, ?_⟩
  case _ =>
    have hpage : r.coordinates.pageIndex = 0 := by rw [hco]
    have hfilter : ([(⟨r.imageUrl, r.coordinates, r.points, 0⟩ :
        ClippedImageInfo)].filter
          (fun clip => clip.coordinates.pageIndex = 0))
        = [⟨r.imageUrl, r.coordinates, r.points, 0⟩] := by
      simp [List.filter_cons, hpage]
    unfold reconstructFromClippedImages
    dsimp only
    rw [hfilter]
    rfl
  case _ =>
    intro i j
    dsimp only
    have hminX : (⟨r.imageUrl, r.coordinates, r.points, 0⟩ :
        ClippedImageInfo).coordinates.minX = ((40 : ℤ) : ℚ) := by
      show r.coordinates.minX = _
      rw [hco]
    have hminY : (⟨r.imageUrl, r.coordinates, r.points, 0⟩ :
        ClippedImageInfo).coordinates.minY = ((40 : ℤ) : ℚ) := by
      show r.coordinates.minY = _
      rw [hco]
    have hmaxX : (⟨r.imageUrl, r.coordinates, r.points, 0⟩ :
        ClippedImageInfo).coordinates.maxX = ((60 : ℤ) : ℚ) := by
      show r.coordinates.maxX = _
      rw [hco]
    have hmaxY : (⟨r.imageUrl, r.coordinates, r.points, 0⟩ :
        ClippedImageInfo).coordinates.maxY = ((60 : ℤ) : ℚ) := by
      show r.coordinates.maxY = _
      rw [hco]
    rw [drawClip_rect (fun _ _ => whiteColor)
      ⟨r.imageUrl, r.coordinates, r.points, 0⟩ 40 40 60 60
      (by decide) (by decide) hminX hminY hmaxX hmaxY hpts hwid hhei i j]
    by_cases hij : (40 : ℤ) ≤ i ∧ i < 60 ∧ (40 : ℤ) ≤ j ∧ j < 60
    · rw [if_pos hij]
      have hb := hpix (i - 40) (j - 40) (by omega) (by omega) (by omega)
        (by omega)
      rw [hb, show (40 : ℤ) + (i - 40) = i from by ring,
        show (40 : ℤ) + (j - 40) = j from by ring]
    · rw [if_neg hij]
      show whiteColor = srcPage.pix i j
      unfold srcPage
      dsimp only
      rw [if_neg hij]

/-- C8: round trip for an axis-aligned rectangle polygon. First, for every
integer-cornered rectangle polygon over any source raster, the clip mask
is a no-op: the extraction succeeds and every pixel of the extracted
raster equals the corresponding pixel of the bounding-box crop of the
source (no edge blending), with the raster sized exactly to the box.
Second, the spec's end-to-end example: clipping the rectangle
(40,40)–(60,60) out of the 100×100 white page with a black square there
and reconstructing page 0 from that single region yields a raster
pixel-identical to the original source page (white elsewhere). -/
theorem rect_roundtrip (x0 y0 x1 y1 : ℤ) (hx : x0 < x1) (hy : y0 < y1)
    (src : Raster) (k : ℕ) :
    (∃ r, clipImageFromPoints (some src)
        (rectPoly (x0 : ℚ) (y0 : ℚ) (x1 : ℚ) (y1 : ℚ)) k = .ok r ∧
      r.coordinates = ⟨(x0 : ℚ), (y0 : ℚ), (x1 : ℚ), (y1 : ℚ), k⟩ ∧
      r.points = rectPoly (x0 : ℚ) (y0 : ℚ) (x1 : ℚ) (y1 : ℚ) ∧
      r.imageUrl.width = (x1 : ℚ) - (x0 : ℚ) ∧
      r.imageUrl.height = (y1 : ℚ) - (y0 : ℚ) ∧
      ∀ i j : ℤ, 0 ≤ i → i < x1 - x0 → 0 ≤ j → j < y1 - y0 →
        r.imageUrl.pix i j = src.pix (x0 + i) (y0 + j)) ∧
    (∃ r page, clipImageFromPoints (some srcPage)
        (rectPoly ((40 : ℤ) : ℚ) ((40 : ℤ) : ℚ) ((60 : ℤ) : ℚ)
          ((60 : ℤ) : ℚ)) 0 = .ok r ∧
      reconstructFromClippedImages 0 100 100
        [⟨r.imageUrl, r.coordinates, r.points, 0⟩] [0] = some page ∧
      page.width = 100 ∧ page.height = 100 ∧
      ∀ i j : ℤ, page.pix i j = srcPage.pix i j) :=
  ⟨extract_rect_exact x0 y0 x1 y1 hx hy src k, rect_roundtrip_concrete⟩

/-- Witness for C8 at the unit square over the example page. -/
theorem rect_roundtrip_witness :
    (0 : ℤ) < 1 ∧
    ∃ r, clipImageFromPoints (some srcPage)
        (rectPoly ((0 : ℤ) : ℚ) ((0 : ℤ) : ℚ) ((1 : ℤ) : ℚ)
          ((1 : ℤ) : ℚ)) 5 = .ok r ∧
      r.coordinates = ⟨((0 : ℤ) : ℚ), ((0 : ℤ) : ℚ), ((1 : ℤ) : ℚ),
        ((1 : ℤ) : ℚ), 5⟩ ∧
      r.points = rectPoly ((0 : ℤ) : ℚ) ((0 : ℤ) : ℚ) ((1 : ℤ) : ℚ)
        ((1 : ℤ) : ℚ) ∧
      r.imageUrl.width = ((1 : ℤ) : ℚ) - ((0 : ℤ) : ℚ) ∧
      r.imageUrl.height = ((1 : ℤ) : ℚ) - ((0 : ℤ) : ℚ) ∧
      ∀ i j : ℤ, 0 ≤ i → i < 1 - 0 → 0 ≤ j → j < 1 - 0 →
        r.imageUrl.pix i j = srcPage.pix (0 + i) (0 + j) :=
  ⟨by decide, (rect_roundtrip 0 0 1 1 (by decide) (by decide) srcPage 5).1⟩

/-- C2 [code bug, evaluated at the failing input]: with the same fixed
collection and page index, two runs of reconstruction that differ only in
decode-completion order produce different pixels at (0,0) — color 7 when
`clipB`'s bytes resolve first versus color 9 when `clipA`'s resolve first
— so the output is not decode-order-independent. -/
theorem reconstruct_not_decode_order_independent :
    ((reconstructFromClippedImages 0 1 1 overlapCollection [0, 1]).map
        fun page => page.pix 0 0) ≠
    ((reconstructFromClippedImages 0 1 1 overlapCollection [1, 0]).map
        fun page => page.pix 0 0) := by
  rw [reconstruct_overlap_clipB_decodes_first,
    reconstruct_overlap_clipA_decodes_first]
  simp

end PolygonClipper
